import Mathlib

/-!
Verification of the weekly-schedule web application (src/app.js).

The development shallowly embeds the data model and the pure logic of the
application: status classification and sorting (`getState`, `sortEvents`),
grouping and rendering (`groupsOf`, `renderEvents`, `renderLiveIds`),
spread computation and formatting (`parseHomeSpread`, `spreadSuffixForSide`,
`prettyNum`), the pick payload (`recordPickSpread`), score rendering
(`safeInt`, `scoreText`), the season-selection state (`initSeason`,
`prevWeek`, `nextWeek`, `selectWeek`) and the polling lifecycle
(`loadStep`, `tickStep`).

JavaScript numbers are modelled as exact rationals (`Rat`); the host
coercions `Number(x)`, `parseInt(x, 10)`, `n.toFixed(1)` and `String(n)`
are modelled on that idealised arithmetic, which agrees with the IEEE-754
behaviour on the short decimal values (halves, integers) that spreads and
scores take.
-/

namespace App

/-- A JSON-ish JavaScript value as it can appear in the `odds[0].spread`
field: absent (`undefined`), literal `null`, a number, or a string. -/
inductive JVal where
  | undef : JVal
  | jnull : JVal
  | num (q : Rat) : JVal
  | str (s : String) : JVal
deriving DecidableEq

/-- Decimal value of a list of digit characters (most significant first). -/
def decValue (l : List Char) : Nat :=
  l.foldl (fun a c => a * 10 + (c.toNat - '0'.toNat)) 0

/-- Model of the JavaScript string-to-number coercion `Number(s)` on the
decimal string literals that occur in odds data: optional surrounding
whitespace, optional sign, then digits with an optional fraction part
("3", "3.5", ".5", "3."). The empty (or all-whitespace) string coerces
to 0, as in JavaScript. `none` models `NaN` (a non-numeric string); the
hexadecimal, binary, octal, exponent and `Infinity` forms of the full
`StringNumericLiteral` grammar do not occur in this data and are mapped
to `none` as well. -/
def jsStrToNumber (s : String) : Option Rat :=
  let cs := ((s.toList.dropWhile Char.isWhitespace).reverse.dropWhile
    Char.isWhitespace).reverse
  if cs.isEmpty then some 0
  else
    let sgn : Rat := if cs.head? = some '-' then -1 else 1
    let cs1 := if cs.head? = some '-' || cs.head? = some '+' then cs.tail else cs
    let intPart := cs1.takeWhile Char.isDigit
    let rest := cs1.dropWhile Char.isDigit
    match rest with
    | [] =>
      if intPart.isEmpty then none
      else some (sgn * (decValue intPart : Rat))
    | '.' :: frac =>
      if frac.all Char.isDigit && !(intPart.isEmpty && frac.isEmpty) then
        some (sgn * ((decValue intPart : Rat) +
          (decValue frac : Rat) / ((10 : Rat) ^ frac.length)))
      else none
    | _ => none

/-- Model of the JavaScript coercion `Number(x)` for the value shapes of
`JVal`; `none` models a non-finite result (`NaN`). Note that
`Number(undefined)` is `NaN` while `Number(null)` is `+0`. -/
def jsToNumber : JVal → Option Rat
  | .undef => none
  | .jnull => some 0
  | .num q => some q
  | .str s => jsStrToNumber s

/-- One entry of the `odds` array; only the `spread` field is read. -/
structure Odds where
  spread : JVal
deriving DecidableEq

/-- One competitor record; only the fields the verified code reads. -/
structure Competitor where
  homeAway : Option String
  score : Option String
deriving DecidableEq

/-- The nested `status.type.state` field. -/
structure Status where
  state : Option String
deriving DecidableEq

/-- One entry of the `competitions` array. -/
structure Competition where
  status : Option Status
  odds : List Odds
  competitors : List Competitor
deriving DecidableEq

/-- One scheduled game, as consumed by the verified code. `date` is the
numeric timestamp `new Date(e.date).getTime()` of the kickoff (events
whose date string does not parse are outside the model: in JavaScript they
yield `NaN` and an implementation-defined comparator result). -/
structure Event where
  id : String
  date : Int
  status : Option Status
  competitions : List Competition
deriving DecidableEq

/-- JavaScript `a || b` on a possibly-absent string `a`: the empty string
is falsy, so it falls through to `b`. -/
def jsOrStr (a : Option String) (b : String) : String :=
  match a with
  | some s => if s = "" then b else s
  | none => b

/-- Model of `String.prototype.toLowerCase()` on the ASCII status strings
this data carries: lower-case every character. (Defined structurally over
the character list so that it evaluates inside the kernel.) -/
def jsToLower (s : String) : String := String.mk (s.data.map Char.toLower)

/-- Source `getState` (app.js lines 30-32):
`(e?.competitions?.[0]?.status?.type?.state || e?.status?.type?.state || "").toLowerCase()`.
`createCard` (line 165) computes the same expression for its `stateStr`. -/
def getState (e : Event) : String :=
  jsToLower (jsOrStr ((e.competitions.head?.bind (·.status)).bind (·.state))
    (jsOrStr (e.status.bind (·.state)) ""))

/-- Source `STATUS_ORDER[getState(a)] ?? 3` (app.js lines 29, 35-36):
the lookup in `{ post: 0, in: 1, pre: 2 }` is `undefined` for any other
key, so `??` yields 3. -/
def statusPriority (e : Event) : Int :=
  if getState e = "post" then 0
  else if getState e = "in" then 1
  else if getState e = "pre" then 2
  else 3

/-- The comparator passed to `sort` in `sortEvents` (app.js lines 34-39):
status priority difference if distinct, otherwise kickoff-date difference. -/
def compareEvents (a b : Event) : Int :=
  if statusPriority a ≠ statusPriority b then statusPriority a - statusPriority b
  else a.date - b.date

/-- Stable insertion of `a` into `l`: `a` goes before the first element it
does not compare strictly greater than. -/
def insertEvent (a : Event) : List Event → List Event
  | [] => [a]
  | b :: t => if compareEvents a b ≤ 0 then a :: b :: t else b :: insertEvent a t

/-- Source `sortEvents` (app.js lines 33-40): `evts.slice().sort(cmp)`.
`Array.prototype.sort` is required to be stable (ES2019), and for a
comparator induced by a total preorder on keys — as `compareEvents` is —
the stable sorted permutation is unique, so it is modelled by a stable
insertion sort. -/
def sortEvents : List Event → List Event
  | [] => []
  | a :: t => insertEvent a (sortEvents t)

/-- Source `parseHomeSpread` (app.js lines 414-418):
`Number(competition?.odds?.[0]?.spread)`, returned when finite, else
`null`. A missing odds array or missing spread field gives `undefined`
at the property access. -/
def parseHomeSpread (c : Competition) : Option Rat :=
  let raw : JVal := match c.odds.head? with
    | some o => o.spread
    | none => .undef
  jsToNumber raw

/-- The epsilon of `spreadSuffixForSide` (app.js line 428): `1e-9`. -/
def jsEps : Rat := 1 / 1000000000

/-- Source `prettyNum` (app.js lines 419-423):
`Number.isInteger(n) ? String(n) : n.toFixed(1).replace(/\x2e0$/, "")`.
`toFixed(1)` renders `sign ++ (m / 10) ++ "." ++ (m % 10)` where `m` is
`abs n * 10` rounded to an integer (ties away from zero, per the ES
`toFixed` algorithm on the idealised value); it always emits exactly one
decimal digit, so the trailing-`.0` trim fires exactly when `m % 10 = 0`. -/
def prettyNum (q : Rat) : String :=
  if q.den = 1 then toString q.num
  else
    let m : Nat := (⌊|q| * 10 + 1/2⌋).toNat
    let sgn : String := if q < 0 then "-" else ""
    if m % 10 = 0 then sgn ++ Nat.repr (m / 10)
    else sgn ++ Nat.repr (m / 10) ++ "." ++ Nat.repr (m % 10)

/-- The per-side signed spread, the `val` of `spreadSuffixForSide`
(app.js line 426): unchanged for the home side, negated for the away
side, null propagated (spec name `sideSpread`). -/
def sideSpread (homeSpread : Option Rat) (isHome : Bool) : Option Rat :=
  homeSpread.map (fun h => if isHome then h else -h)

/-- The formatting half of `spreadSuffixForSide` (app.js lines 425-430),
applied to the per-side value (spec name `formatSuffix`): empty for null,
`" (PK)"` within `1e-9` of zero, otherwise the parenthesised signed
number. -/
def formatSuffix : Option Rat → String
  | none => ""
  | some val =>
    if |val| < jsEps then " (PK)"
    else " (" ++ (if 0 < val then "+" else "") ++ prettyNum val ++ ")"

/-- Source `spreadSuffixForSide` (app.js lines 424-431). -/
def spreadSuffixForSide (homeSpread : Option Rat) (isHome : Bool) : String :=
  match homeSpread with
  | none => ""
  | some h =>
    let val := if isHome then h else -h
    if |val| < jsEps then " (PK)"
    else " (" ++ (if 0 < val then "+" else "") ++ prettyNum val ++ ")"

/-- The `spread:` field of the payload built by `recordPick`
(app.js line 272): `selectionHomeAway === "home" ? homeSpread : -homeSpread`.
For the away side with a null `homeSpread`, JavaScript unary minus coerces
`null` to `+0` and negates it to `-0` — a number (serialised as `0`),
not `null`. -/
def recordPickSpread (homeSpread : Option Rat) (selectionHomeAway : String) : JVal :=
  if selectionHomeAway = "home" then
    match homeSpread with
    | none => .jnull
    | some q => .num q
  else
    match homeSpread with
    | none => .num 0
    | some q => .num (-q)

/-- The unused local `const spread` of `recordPick` (app.js lines 262-263):
`(homeSpread == null) ? null : (selectionHomeAway === "home" ? homeSpread : -homeSpread)`.
The payload does not use it. -/
def recordPickLocalSpread (homeSpread : Option Rat) (selectionHomeAway : String) :
    Option Rat :=
  match homeSpread with
  | none => none
  | some q => some (if selectionHomeAway = "home" then q else -q)

/-- A competition record with no odds data at all. -/
def noOddsComp : Competition := { status := some { state := some "pre" }, odds := [], competitors := [] }

/-- A competition whose first odds entry has a literal `null` spread. -/
def nullSpreadComp : Competition :=
  { status := some { state := some "pre" }, odds := [{ spread := .jnull }], competitors := [] }

/-- A competition whose first odds entry has the string spread "-3.5". -/
def strSpreadComp : Competition :=
  { status := some { state := some "pre" }, odds := [{ spread := .str "-3.5" }], competitors := [] }

/-- C1 (code bug, evaluation at the failing input): for a competition with
no odds data the home spread is null and both side suffixes are empty, and
the payload spread is `null` for the home side; but for the away side the
payload line `selectionHomeAway === "home" ? homeSpread : -homeSpread`
(app.js line 272) negates the null home spread, producing the number `-0`
rather than `null`. The unused local `const spread` of lines 262-263 — the
value the code's own comment describes — is `null` as the spec states. -/
theorem claim_C1_no_odds_payload :
    parseHomeSpread noOddsComp = none
    ∧ spreadSuffixForSide (parseHomeSpread noOddsComp) true = ""
    ∧ spreadSuffixForSide (parseHomeSpread noOddsComp) false = ""
    ∧ recordPickSpread (parseHomeSpread noOddsComp) "home" = JVal.jnull
    ∧ recordPickSpread (parseHomeSpread noOddsComp) "away" = JVal.num 0
    ∧ JVal.num 0 ≠ JVal.jnull
    ∧ recordPickLocalSpread (parseHomeSpread noOddsComp) "away" = none := by
  refine ⟨rfl, rfl, rfl, rfl, rfl, ?_, rfl⟩
  decide

/-- C2 (counterexample): the claim says a `null` spread value yields a
null home spread, but `Number(null)` is `+0`, which is finite, so
`parseHomeSpread` returns `0`, not `null`. -/
theorem claim_C2_counterexample :
    parseHomeSpread nullSpreadComp = some 0 ∧ parseHomeSpread nullSpreadComp ≠ none := by
  refine ⟨rfl, ?_⟩
  decide

/-- C2 (amended): `parseHomeSpread` returns the first odds entry's spread
coerced with `Number()`: null when the odds array is empty or the spread
field is absent, the string coercion result for string spreads (null
exactly for non-numeric strings), the value itself for numeric spreads —
and, amending the claim, a literal `null` spread coerces to `0` and is
returned as `0`, not null. -/
theorem claim_C2_amended (c : Competition) :
    (c.odds = [] → parseHomeSpread c = none)
    ∧ (∀ o t, c.odds = o :: t →
        (o.spread = JVal.undef → parseHomeSpread c = none)
        ∧ (∀ s, o.spread = JVal.str s → parseHomeSpread c = jsStrToNumber s)
        ∧ (∀ q, o.spread = JVal.num q → parseHomeSpread c = some q)
        ∧ (o.spread = JVal.jnull → parseHomeSpread c = some 0)) := by
  constructor
  · intro h
    simp [parseHomeSpread, h, jsToNumber]
  · intro o t h
    refine ⟨?_, ?_, ?_, ?_⟩ <;>
      (intros; simp [parseHomeSpread, h, jsToNumber, *])

/-- C2 witness: the amended theorem applied to the concrete no-odds and
string-spread competitions. -/
theorem claim_C2_witness :
    noOddsComp.odds = []
    ∧ parseHomeSpread noOddsComp = none
    ∧ strSpreadComp.odds = [{ spread := JVal.str "-3.5" }]
    ∧ parseHomeSpread strSpreadComp = jsStrToNumber "-3.5"
    ∧ jsStrToNumber "abc" = none := by
  have h1 := (claim_C2_amended noOddsComp).1 rfl
  have h2 := ((claim_C2_amended strSpreadComp).2 { spread := JVal.str "-3.5" } [] rfl).2.1
    "-3.5" rfl
  exact ⟨rfl, h1, rfl, h2, rfl⟩

/-- Shape of a `prettyNum` result: the given sign, a decimal integer part,
and at most one decimal digit, which is never 0 (the trailing-`.0` trim). -/
def PrettyShape (q : Rat) (sgn : String) : Prop :=
  ∃ a : Nat, ∃ rest : String,
    prettyNum q = sgn ++ Nat.repr a ++ rest
    ∧ (rest = "" ∨ ∃ d : Nat, d < 10 ∧ 0 < d ∧ rest = "." ++ Nat.repr d)

/-- Rendering an integer is a minus sign for negatives followed by the
decimal digits of the absolute value. -/
theorem int_repr_shape (i : Int) :
    toString i = (if i < 0 then "-" else "") ++ Nat.repr i.natAbs := by
  cases i with
  | ofNat m =>
    have h : ¬ ((Int.ofNat m) < 0) := Int.not_lt.mpr (Int.ofNat_zero_le m)
    rw [if_neg h, String.empty_append]
    rfl
  | negSucc m =>
    rw [if_pos (Int.negSucc_lt_zero m)]
    rfl

/-- Every `prettyNum` result has the sign of its argument followed by an
integer part and at most one (nonzero) decimal digit. -/
theorem prettyNum_shape (q : Rat) :
    PrettyShape q (if q < 0 then "-" else "") := by
  by_cases hden : q.den = 1
  · refine ⟨q.num.natAbs, "", ?_, Or.inl rfl⟩
    have hsgn : (q < 0) ↔ (q.num < 0) := Rat.num_neg.symm
    have h1 : (if q < 0 then ("-" : String) else "") = (if q.num < 0 then "-" else "") :=
      if_congr hsgn rfl rfl
    rw [prettyNum, if_pos hden, int_repr_shape q.num, String.append_empty, h1]
  · by_cases hm : (⌊|q| * 10 + 1/2⌋).toNat % 10 = 0
    · refine ⟨(⌊|q| * 10 + 1/2⌋).toNat / 10, "", ?_, Or.inl rfl⟩
      rw [String.append_empty]
      simp only [prettyNum, if_neg hden, if_pos hm]
    · refine ⟨(⌊|q| * 10 + 1/2⌋).toNat / 10,
        "." ++ Nat.repr ((⌊|q| * 10 + 1/2⌋).toNat % 10), ?_,
        Or.inr ⟨(⌊|q| * 10 + 1/2⌋).toNat % 10, Nat.mod_lt _ (by norm_num),
          Nat.pos_of_ne_zero hm, rfl⟩⟩
      simp only [prettyNum, if_neg hden, if_neg hm]
      rw [String.append_assoc]

theorem prettyNum_shape_pos (q : Rat) (hq : 0 < q) : PrettyShape q "" := by
  have h := prettyNum_shape q
  rwa [if_neg (not_lt.mpr (le_of_lt hq))] at h

theorem prettyNum_shape_neg (q : Rat) (hq : q < 0) : PrettyShape q "-" := by
  have h := prettyNum_shape q
  rwa [if_pos hq] at h

/-- C3: the suffix computation factors through the per-side signed value;
for any non-null home spread the away value is the negation of the home
value; a side value within `1e-9` of zero formats as `" (PK)"`; otherwise
the suffix is the parenthesised number with an explicit `+` exactly for
positive values (the minus sign comes from the number itself), rendered
with at most one decimal digit and the trailing `.0` trimmed
(`PrettyShape`). -/
theorem claim_C3_spread_sign_and_format :
    (∀ h b, spreadSuffixForSide h b = formatSuffix (sideSpread h b))
    ∧ (∀ s : Rat, sideSpread (some s) false = (sideSpread (some s) true).map (fun x => -x))
    ∧ (∀ v : Rat, |v| < jsEps → formatSuffix (some v) = " (PK)")
    ∧ (∀ v : Rat, jsEps ≤ |v| →
        (0 < v → formatSuffix (some v) = " (+" ++ prettyNum v ++ ")" ∧ PrettyShape v "")
        ∧ (v < 0 → formatSuffix (some v) = " (" ++ prettyNum v ++ ")" ∧ PrettyShape v "-")) := by
  refine ⟨?_, ?_, ?_, ?_⟩
  · intro h b
    cases h with
    | none => rfl
    | some x => rfl
  · intro s
    simp [sideSpread]
  · intro v hv
    simp [formatSuffix, hv]
  · intro v hv
    have hne : ¬ (|v| < jsEps) := not_lt.mpr hv
    constructor
    · intro hpos
      constructor
      · have e1 : (" (" ++ "+" : String) = " (+" := rfl
        rw [formatSuffix, if_neg hne, if_pos hpos, e1]
      · exact prettyNum_shape_pos v hpos
    · intro hneg
      constructor
      · have e2 : (" (" ++ "" : String) = " (" := rfl
        rw [formatSuffix, if_neg hne, if_neg (not_lt.mpr (le_of_lt hneg)), e2]
      · exact prettyNum_shape_neg v hneg

/-- C3 witness: the theorem applied at home spread 3 (away side suffix
`" (+3)"`) and at a side value inside the epsilon (suffix `" (PK)"`). -/
theorem claim_C3_witness :
    jsEps ≤ |(3 : Rat)|
    ∧ (0:Rat) < 3
    ∧ formatSuffix (some (3 : Rat)) = " (+" ++ prettyNum (3 : Rat) ++ ")"
    ∧ PrettyShape (3 : Rat) ""
    ∧ prettyNum (3 : Rat) = "3"
    ∧ spreadSuffixForSide (some (3 : Rat)) false = formatSuffix (sideSpread (some (3 : Rat)) false)
    ∧ |(1 : Rat)/2000000000| < jsEps
    ∧ formatSuffix (some ((1 : Rat)/2000000000)) = " (PK)" := by
  have h1 : jsEps ≤ |(3 : Rat)| := by norm_num [jsEps]
  have h2 : (0:Rat) < 3 := by norm_num
  have h3 := (claim_C3_spread_sign_and_format.2.2.2 3 h1).1 h2
  have h4 : |(1 : Rat)/2000000000| < jsEps := by
    rw [jsEps, abs_of_pos (by norm_num)]
    norm_num
  have h5 := claim_C3_spread_sign_and_format.2.2.1 _ h4
  exact ⟨h1, h2, h3.1, h3.2, rfl,
    claim_C3_spread_sign_and_format.1 (some 3) false, h4, h5⟩

/-- The classifier sort key: status priority, then kickoff timestamp. -/
def keyOf (e : Event) : Int × Int := (statusPriority e, e.date)

/-- The lexicographic preorder on events induced by `keyOf`. -/
def keyLe (a b : Event) : Prop :=
  statusPriority a < statusPriority b
  ∨ (statusPriority a = statusPriority b ∧ a.date ≤ b.date)

theorem compareEvents_le_iff (a b : Event) : compareEvents a b ≤ 0 ↔ keyLe a b := by
  rw [compareEvents, keyLe]
  by_cases h : statusPriority a = statusPriority b
  · rw [if_neg (by simp [h])]
    constructor
    · intro hd
      exact Or.inr ⟨h, by omega⟩
    · rintro (hlt | ⟨_, hd⟩)
      · omega
      · omega
  · rw [if_pos (by simp [h])]
    constructor
    · intro hd
      exact Or.inl (by omega)
    · rintro (hlt | ⟨he, _⟩)
      · omega
      · exact absurd he h

theorem keyOf_eq_cmp_zero {a b : Event} (h : keyOf a = keyOf b) :
    compareEvents a b = 0 := by
  rw [keyOf, keyOf, Prod.mk.injEq] at h
  rw [compareEvents, if_neg (by simp [h.1])]
  omega

theorem keyLe_of_not_le {a b : Event} (h : ¬ compareEvents a b ≤ 0) : keyLe b a := by
  rw [compareEvents_le_iff] at h
  rw [keyLe] at h ⊢
  push_neg at h
  obtain ⟨h1, h2⟩ := h
  by_cases he : statusPriority a = statusPriority b
  · exact Or.inr ⟨he.symm, le_of_lt (h2 he)⟩
  · exact Or.inl (by omega)

theorem keyLe_trans {a b c : Event} (h1 : keyLe a b) (h2 : keyLe b c) : keyLe a c := by
  rw [keyLe] at *
  rcases h1 with h1 | ⟨h1, h1d⟩ <;> rcases h2 with h2 | ⟨h2, h2d⟩
  · exact Or.inl (by omega)
  · exact Or.inl (by omega)
  · exact Or.inl (by omega)
  · exact Or.inr ⟨by omega, by omega⟩

theorem mem_insertEvent {x a : Event} {l : List Event} :
    x ∈ insertEvent a l ↔ x = a ∨ x ∈ l := by
  induction l with
  | nil => simp [insertEvent]
  | cons b t ih =>
    rw [insertEvent]
    by_cases hc : compareEvents a b ≤ 0
    · rw [if_pos hc]
      simp [or_comm, or_assoc, or_left_comm]
    · rw [if_neg hc]
      simp [ih]
      tauto

theorem insertEvent_perm (a : Event) (l : List Event) :
    (insertEvent a l).Perm (a :: l) := by
  induction l with
  | nil => simp [insertEvent]
  | cons b t ih =>
    rw [insertEvent]
    by_cases hc : compareEvents a b ≤ 0
    · rw [if_pos hc]
    · rw [if_neg hc]
      exact (ih.cons b).trans (List.Perm.swap a b t)

theorem pairwise_insertEvent {a : Event} {l : List Event} (h : l.Pairwise keyLe) :
    (insertEvent a l).Pairwise keyLe := by
  induction l with
  | nil => simp [insertEvent]
  | cons b t ih =>
    rcases List.pairwise_cons.mp h with ⟨hb, ht⟩
    rw [insertEvent]
    by_cases hc : compareEvents a b ≤ 0
    · rw [if_pos hc]
      refine List.pairwise_cons.mpr ⟨?_, h⟩
      intro x hx
      rcases List.mem_cons.mp hx with hx | hx
      · exact hx ▸ (compareEvents_le_iff a b).mp hc
      · exact keyLe_trans ((compareEvents_le_iff a b).mp hc) (hb x hx)
    · rw [if_neg hc]
      refine List.pairwise_cons.mpr ⟨?_, ih ht⟩
      intro x hx
      rcases mem_insertEvent.mp hx with hx | hx
      · exact hx ▸ keyLe_of_not_le hc
      · exact hb x hx

theorem sortEvents_pairwise (l : List Event) : (sortEvents l).Pairwise keyLe := by
  induction l with
  | nil => simp [sortEvents]
  | cons a t ih => exact pairwise_insertEvent ih

theorem sortEvents_perm (l : List Event) : (sortEvents l).Perm l := by
  induction l with
  | nil => simp [sortEvents]
  | cons a t ih => exact (insertEvent_perm a (sortEvents t)).trans (ih.cons a)

theorem filter_insertEvent (a : Event) (l : List Event) (k : Int × Int) :
    (insertEvent a l).filter (fun e => keyOf e == k)
      = if keyOf a = k then a :: l.filter (fun e => keyOf e == k)
        else l.filter (fun e => keyOf e == k) := by
  induction l with
  | nil =>
    by_cases hk : keyOf a = k
    · simp [insertEvent, hk]
    · simp [insertEvent, hk]
  | cons b t ih =>
    rw [insertEvent]
    by_cases hc : compareEvents a b ≤ 0
    · rw [if_pos hc]
      by_cases hk : keyOf a = k
      · simp [List.filter_cons, hk]
      · simp [List.filter_cons, hk]
    · rw [if_neg hc]
      have hbk : keyOf b ≠ keyOf a := by
        intro he
        exact hc (le_of_eq (keyOf_eq_cmp_zero he.symm))
      by_cases hk : keyOf a = k
      · have hbk2 : ¬ (keyOf b = k) := fun hb => hbk (hb.trans hk.symm)
        rw [List.filter_cons, List.filter_cons, ih]
        simp [hk, hbk2]
      · rw [List.filter_cons, List.filter_cons, ih]
        simp [hk]

theorem sortEvents_filter (l : List Event) (k : Int × Int) :
    (sortEvents l).filter (fun e => keyOf e == k) = l.filter (fun e => keyOf e == k) := by
  induction l with
  | nil => rfl
  | cons a t ih =>
    rw [sortEvents, filter_insertEvent, List.filter_cons]
    by_cases hk : keyOf a = k
    · rw [if_pos hk, ih]
      simp [hk]
    · rw [if_neg hk, ih]
      simp [hk]

/-- C4: `sortEvents` orders events by the lexicographic key (status
priority — post 0, in 1, pre 2, anything else 3 — then kickoff timestamp
ascending), is a permutation of its input, and is stable: for every key,
the subsequence of events with that key is exactly the subsequence of the
input, i.e. equal-key events keep their original relative order. -/
theorem claim_C4_sort_sorted_stable (l : List Event) :
    (sortEvents l).Pairwise keyLe
    ∧ (sortEvents l).Perm l
    ∧ ∀ k : Int × Int, (sortEvents l).filter (fun e => keyOf e == k)
        = l.filter (fun e => keyOf e == k) :=
  ⟨sortEvents_pairwise l, sortEvents_perm l, fun k => sortEvents_filter l k⟩

/-- The three buckets of `renderEvents` (app.js line 130):
`{ post: [], in: [], pre: [] }` (`in` is a reserved word in Lean, so the
field is named `inBucket`). -/
structure Groups where
  post : List Event
  inBucket : List Event
  pre : List Event
deriving DecidableEq

/-- One step of the grouping loop (app.js lines 131-134):
`(groups[s] ?? groups.pre).push(e)` — the literal object has own keys
post, in, pre; any other state string looks up `undefined` and `??` falls
back to the pre bucket. -/
def groupStep (g : Groups) (e : Event) : Groups :=
  if getState e = "post" then { g with post := g.post ++ [e] }
  else if getState e = "in" then { g with inBucket := g.inBucket ++ [e] }
  else { g with pre := g.pre ++ [e] }

/-- The grouping pass of `renderEvents` (app.js lines 129-134). -/
def groupsOf (events : List Event) : Groups :=
  events.foldl groupStep ⟨[], [], []⟩

/-- The section list emitted by `renderEvents` (app.js lines 136-160): the
fixed `ORDER` is Final (post), Live (in), Upcoming (pre); a bucket with no
events is skipped entirely (`if (!list.length) continue`), so it emits
neither a header nor a card grid. -/
def renderEvents (events : List Event) : List (String × List Event) :=
  [("Final", (groupsOf events).post), ("Live", (groupsOf events).inBucket),
    ("Upcoming", (groupsOf events).pre)].filter (fun sec => !sec.2.isEmpty)

/-- The Live Set produced by a render pass: `renderEvents` first clears
`state.liveEventIds` (app.js line 127, hence the previous set is simply
discarded), then `createCard` adds `event.id` for each card whose state is
"in" (app.js line 179); cards are created bucket by bucket. -/
def renderLiveIds (_prevLive : Finset String) (events : List Event) : Finset String :=
  ((groupsOf events).post ++ (groupsOf events).inBucket ++ (groupsOf events).pre).foldl
    (fun s e => if getState e = "in" then insert e.id s else s) ∅

theorem foldl_groupStep (l : List Event) (g : Groups) :
    (l.foldl groupStep g).post = g.post ++ l.filter (fun e => getState e == "post")
    ∧ (l.foldl groupStep g).inBucket = g.inBucket ++ l.filter (fun e => getState e == "in")
    ∧ (l.foldl groupStep g).pre
        = g.pre ++ l.filter (fun e => getState e != "post" && getState e != "in") := by
  induction l generalizing g with
  | nil => simp
  | cons e t ih =>
    rw [List.foldl_cons]
    rcases ih (groupStep g e) with ⟨hp, hi, hr⟩
    by_cases h1 : getState e = "post"
    · rw [groupStep, if_pos h1] at hp hi hr
      refine ⟨?_, ?_, ?_⟩ <;> simp [groupStep, h1, hp, hi, hr, List.filter_cons]
    · by_cases h2 : getState e = "in"
      · rw [groupStep, if_neg h1, if_pos h2] at hp hi hr
        refine ⟨?_, ?_, ?_⟩ <;> simp [groupStep, h1, h2, hp, hi, hr, List.filter_cons]
      · rw [groupStep, if_neg h1, if_neg h2] at hp hi hr
        refine ⟨?_, ?_, ?_⟩ <;> simp [groupStep, h1, h2, hp, hi, hr, List.filter_cons]

theorem groupsOf_post (l : List Event) :
    (groupsOf l).post = l.filter (fun e => getState e == "post") := by
  have h := foldl_groupStep l ⟨[], [], []⟩
  simpa [groupsOf] using h.1

theorem groupsOf_inBucket (l : List Event) :
    (groupsOf l).inBucket = l.filter (fun e => getState e == "in") := by
  have h := foldl_groupStep l ⟨[], [], []⟩
  simpa [groupsOf] using h.2.1

theorem groupsOf_pre (l : List Event) :
    (groupsOf l).pre = l.filter (fun e => getState e != "post" && getState e != "in") := by
  have h := foldl_groupStep l ⟨[], [], []⟩
  simpa [groupsOf] using h.2.2

theorem bucket_lengths (l : List Event) :
    (groupsOf l).post.length + (groupsOf l).inBucket.length + (groupsOf l).pre.length
      = l.length := by
  rw [groupsOf_post, groupsOf_inBucket, groupsOf_pre]
  induction l with
  | nil => rfl
  | cons e t ih =>
    by_cases h1 : getState e = "post"
    · simp [List.filter_cons, h1]
      omega
    · by_cases h2 : getState e = "in"
      · simp [List.filter_cons, h1, h2]
        omega
      · simp [List.filter_cons, h1, h2]
        omega

/-- C5: the grouping of a render pass is a partition — the post bucket is
exactly the "post"-state events, the in bucket exactly the "in"-state
events, and the pre bucket exactly the rest (every unknown state falls
into the Upcoming bucket), with lengths summing to the input length so
each event lands in exactly one bucket; the emitted sections are the
non-empty buckets in the fixed order Final, Live, Upcoming regardless of
input order, and an empty bucket emits nothing at all. -/
theorem claim_C5_render_partition (l : List Event) :
    (groupsOf l).post = l.filter (fun e => getState e == "post")
    ∧ (groupsOf l).inBucket = l.filter (fun e => getState e == "in")
    ∧ (groupsOf l).pre = l.filter (fun e => getState e != "post" && getState e != "in")
    ∧ (groupsOf l).post.length + (groupsOf l).inBucket.length + (groupsOf l).pre.length
        = l.length
    ∧ renderEvents l
        = (if (groupsOf l).post.isEmpty then [] else [("Final", (groupsOf l).post)])
          ++ (if (groupsOf l).inBucket.isEmpty then [] else [("Live", (groupsOf l).inBucket)])
          ++ (if (groupsOf l).pre.isEmpty then [] else [("Upcoming", (groupsOf l).pre)])
    ∧ List.Sublist ((renderEvents l).map Prod.fst) ["Final", "Live", "Upcoming"] := by
  have hsec : renderEvents l
      = (if (groupsOf l).post.isEmpty then [] else [("Final", (groupsOf l).post)])
        ++ (if (groupsOf l).inBucket.isEmpty then [] else [("Live", (groupsOf l).inBucket)])
        ++ (if (groupsOf l).pre.isEmpty then [] else [("Upcoming", (groupsOf l).pre)]) := by
    rw [renderEvents]
    by_cases h1 : (groupsOf l).post.isEmpty <;>
      by_cases h2 : (groupsOf l).inBucket.isEmpty <;>
        by_cases h3 : (groupsOf l).pre.isEmpty <;>
          simp [List.filter_cons, h1, h2, h3]
  refine ⟨groupsOf_post l, groupsOf_inBucket l, groupsOf_pre l, bucket_lengths l, hsec, ?_⟩
  rw [hsec]
  by_cases h1 : (groupsOf l).post.isEmpty <;>
    by_cases h2 : (groupsOf l).inBucket.isEmpty <;>
      by_cases h3 : (groupsOf l).pre.isEmpty <;>
        simp [h1, h2, h3]

theorem foldl_liveIds (l : List Event) (s0 : Finset String) :
    l.foldl (fun s e => if getState e = "in" then insert e.id s else s) s0
      = s0 ∪ ((l.filter (fun e => getState e == "in")).map (fun e => e.id)).toFinset := by
  induction l generalizing s0 with
  | nil => simp
  | cons e t ih =>
    rw [List.foldl_cons]
    by_cases h : getState e = "in"
    · rw [if_pos h, ih, List.filter_cons]
      simp [h, Finset.insert_union, Finset.union_insert]
    · rw [if_neg h, ih, List.filter_cons]
      simp [h]

/-- C6: after any render pass the Live Set equals exactly the set of
identifiers of the input events whose classified state is "in" — it is
independent of the previous Live Set (no stale identifiers survive the
clear), and no event of any other state contributes. -/
theorem claim_C6_live_set (prevLive : Finset String) (l : List Event) :
    renderLiveIds prevLive l
      = ((l.filter (fun e => getState e == "in")).map (fun e => e.id)).toFinset := by
  rw [renderLiveIds, foldl_liveIds, Finset.empty_union]
  congr 1
  rw [groupsOf_post, groupsOf_inBucket, groupsOf_pre, List.filter_append, List.filter_append]
  have hpost : (l.filter (fun e => getState e == "post")).filter
      (fun e => getState e == "in") = [] := by
    rw [List.filter_eq_nil_iff]
    intro a ha
    have := (List.mem_filter.mp ha).2
    simp at this ⊢
    simp [this]
  have hpre : (l.filter (fun e => getState e != "post" && getState e != "in")).filter
      (fun e => getState e == "in") = [] := by
    rw [List.filter_eq_nil_iff]
    intro a ha
    have := (List.mem_filter.mp ha).2
    simp at this ⊢
    simp [this.2]
  have hin : (l.filter (fun e => getState e == "in")).filter
      (fun e => getState e == "in") = l.filter (fun e => getState e == "in") := by
    rw [List.filter_filter]
    simp
  rw [hpost, hpre, hin]
  simp


/-- Outcome of one `fetchJSON` round trip for a schedule URL: `err` models
a rejected fetch or a JSON parse failure; `ok evs` a parsed body, with
`evs = none` when `data.events` is not an array. -/
inductive FetchOutcome where
  | err : FetchOutcome
  | ok (events : Option (List Event)) : FetchOutcome

/-- The events a flow works with: `Array.isArray(data?.events) ?
sortEvents(data.events) : []` (app.js lines 107, 387). -/
def eventsOf : Option (List Event) → List Event
  | some l => sortEvents l
  | none => []

/-- The session state the polling lifecycle touches: the set of active
interval timers of the page, the stored handle `state.refreshTimer`
(cleared timers leave a stale handle behind, and `clearInterval` of a
stale or null handle is a no-op, as in the browser), a fresh-id source for
`setInterval`, `state.liveEventIds`, the rendered grid sections, and the
Live Set produced by the most recent `renderEvents` call, if any. -/
structure AppState where
  timers : Finset Nat
  handle : Option Nat
  nextId : Nat
  live : Finset String
  content : List (String × List Event)
  lastRenderLive : Option (Finset String)

/-- The state at startup: no timer, empty live set, nothing rendered. -/
def initApp : AppState :=
  { timers := ∅, handle := none, nextId := 0, live := ∅, content := [],
    lastRenderLive := none }

/-- Effect of `clearInterval(state.refreshTimer)` on the page's active
timers. -/
def clearTimer (s : AppState) : Finset Nat :=
  match s.handle with
  | some h => s.timers.erase h
  | none => s.timers

/-- The state mutations at the top of `loadWeek` (app.js lines 99-102):
`clearInterval(state.refreshTimer)`, `state.liveEventIds.clear()` and
emptying the grid, all before the fetch. -/
def loadClear (s : AppState) : AppState :=
  { s with timers := clearTimer s, live := ∅, content := [] }

/-- The state mutations of one `renderEvents(events)` call (app.js lines
123-161): the grid is replaced by the emitted sections and the live set is
rebuilt from scratch by the `createCard` calls. -/
def renderState (s : AppState) (events : List Event) : AppState :=
  { s with
    live := renderLiveIds s.live events
    content := renderEvents events
    lastRenderLive := some (renderLiveIds s.live events) }

/-- The timer creation `state.refreshTimer = setInterval(...)` (app.js
line 118): a fresh interval timer is created and its handle stored. -/
def startTimer (s : AppState) : AppState :=
  { s with
    timers := insert s.nextId s.timers
    handle := some s.nextId
    nextId := s.nextId + 1 }

/-- One complete `loadWeek` flow (app.js lines 98-120) with fetch outcome
`r`: it first cancels the stored timer, clears the live set and empties
the grid; a rejected fetch propagates out of `loadWeek` (there is no
try/catch around it), leaving that state; an empty schedule sets the
status text and returns before rendering; otherwise it renders and — per
`if (state.liveEventIds.size)` — starts a fresh interval timer exactly
when the new live set has nonzero size. -/
def loadStep (s : AppState) (r : FetchOutcome) : AppState :=
  match r with
  | .err => loadClear s
  | .ok evOpt =>
    if (eventsOf evOpt).isEmpty then loadClear s
    else if (renderState (loadClear s) (eventsOf evOpt)).live.card = 0 then
      renderState (loadClear s) (eventsOf evOpt)
    else startTimer (renderState (loadClear s) (eventsOf evOpt))

/-- One `refreshLive` poll tick (app.js lines 383-395) with fetch outcome
`r`: the whole body is inside try/catch, so a failed fetch or parse only
logs and leaves every piece of state untouched; a successful tick
re-renders (an empty schedule also renders, clearing the live set) and —
per `if (!state.liveEventIds.size)` — cancels the stored timer exactly
when the resulting live set has size zero. -/
def tickStep (s : AppState) (r : FetchOutcome) : AppState :=
  match r with
  | .err => s
  | .ok evOpt =>
    if (renderState s (eventsOf evOpt)).live.card = 0 then
      { renderState s (eventsOf evOpt) with
        timers := clearTimer (renderState s (eventsOf evOpt)) }
    else renderState s (eventsOf evOpt)

/-- The session states reachable from startup under the single-threaded
flow model: any sequence of completed load flows (week changes, manual
refreshes) and poll ticks; a tick can only fire while its interval timer
is active. -/
inductive AppReach : AppState → Prop where
  | init : AppReach initApp
  | load {s : AppState} (r : FetchOutcome) : AppReach s → AppReach (loadStep s r)
  | tick {s : AppState} (r : FetchOutcome) : AppReach s → s.timers ≠ ∅ →
      AppReach (tickStep s r)

/-- The timer discipline invariant: at most one active timer, the stored
handle points at any active timer, the timer is active exactly when the
live set is non-empty, and all issued ids are below the fresh-id source. -/
def TimerInv (s : AppState) : Prop :=
  s.timers.card ≤ 1
  ∧ (∀ t ∈ s.timers, s.handle = some t)
  ∧ (s.timers = ∅ ↔ s.live = ∅)
  ∧ (∀ t ∈ s.timers, t < s.nextId)
  ∧ (∀ h, s.handle = some h → h < s.nextId)

theorem clearTimer_eq (t s : AppState) (htm : t.timers = s.timers)
    (hhd : t.handle = s.handle) : clearTimer t = clearTimer s := by
  rw [clearTimer, clearTimer, htm, hhd]

theorem timerInv_clear {s : AppState} (hinv : TimerInv s) : clearTimer s = ∅ := by
  obtain ⟨_, hhd, _, _, _⟩ := hinv
  rw [clearTimer]
  cases hh : s.handle with
  | none =>
    apply Finset.eq_empty_iff_forall_not_mem.mpr
    intro x hx
    have := hhd x hx
    rw [hh] at this
    exact Option.noConfusion this
  | some h0 =>
    apply Finset.eq_empty_iff_forall_not_mem.mpr
    intro x hx
    rcases Finset.mem_erase.mp hx with ⟨hne, hmem⟩
    have := hhd x hmem
    rw [hh] at this
    exact hne (Option.some.inj this).symm

theorem timerInv_load {s : AppState} (hinv : TimerInv s) (r : FetchOutcome) :
    TimerInv (loadStep s r) := by
  have hclear := timerInv_clear hinv
  obtain ⟨hcard, hhd, hiff, hlt, hhlt⟩ := hinv
  have hclearInv : TimerInv (loadClear s) := by
    refine ⟨?_, ?_, ?_, ?_, ?_⟩ <;> simp [loadClear, hclear]
    exact fun h hh => hhlt h hh
  cases r with
  | err => exact hclearInv
  | ok evOpt =>
    rw [loadStep]
    by_cases hev : (eventsOf evOpt).isEmpty
    · rw [if_pos hev]
      exact hclearInv
    · rw [if_neg hev]
      by_cases hlive : (renderState (loadClear s) (eventsOf evOpt)).live.card = 0
      · rw [if_pos hlive]
        have hlive2 : (renderState (loadClear s) (eventsOf evOpt)).live = ∅ :=
          Finset.card_eq_zero.mp hlive
        simp only [renderState, loadClear] at hlive2 ⊢
        refine ⟨?_, ?_, ?_, ?_, ?_⟩ <;> simp [hclear, hlive2]
        exact fun h hh => hhlt h hh
      · rw [if_neg hlive]
        have hlive2 : (renderState (loadClear s) (eventsOf evOpt)).live ≠ ∅ := by
          intro h
          exact hlive (by rw [h]; simp)
        simp only [renderState, loadClear] at hlive2 ⊢
        refine ⟨?_, ?_, ?_, ?_, ?_⟩ <;> simp [startTimer, hclear, hlive2]

theorem timerInv_tick {s : AppState} (hinv : TimerInv s) (r : FetchOutcome)
    (hne : s.timers ≠ ∅) : TimerInv (tickStep s r) := by
  have hclear := timerInv_clear hinv
  obtain ⟨hcard, hhd, hiff, hlt, hhlt⟩ := hinv
  cases r with
  | err => exact ⟨hcard, hhd, hiff, hlt, hhlt⟩
  | ok evOpt =>
    rw [tickStep]
    by_cases hlive : (renderState s (eventsOf evOpt)).live.card = 0
    · rw [if_pos hlive]
      have hct : clearTimer (renderState s (eventsOf evOpt)) = ∅ :=
        (clearTimer_eq (renderState s (eventsOf evOpt)) s rfl rfl).trans hclear
      have hlive2 : (renderState s (eventsOf evOpt)).live = ∅ :=
        Finset.card_eq_zero.mp hlive
      rw [renderState] at hlive2
      simp only [renderState] at hct
      refine ⟨?_, ?_, ?_, ?_, ?_⟩ <;> simp [hct, renderState, hlive2]
      exact fun h hh => hhlt h hh
    · rw [if_neg hlive]
      have hlive2 : (renderState s (eventsOf evOpt)).live ≠ ∅ := by
        intro h
        exact hlive (by rw [h]; simp)
      simp only [renderState] at hlive2 ⊢
      refine ⟨hcard, ?_, ?_, ?_, ?_⟩ <;> simp [hlive2, hne]
      · exact fun t ht => hhd t ht
      · exact fun t ht => hlt t ht
      · exact fun h hh => hhlt h hh

theorem appReach_inv {s : AppState} (h : AppReach s) : TimerInv s := by
  induction h with
  | init => refine ⟨?_, ?_, ?_, ?_, ?_⟩ <;> simp [initApp]
  | load r _ ih => exact timerInv_load ih r
  | tick r _ hne ih => exact timerInv_tick ih r hne

theorem loadStep_timers {s : AppState} (hinv : TimerInv s) (r : FetchOutcome) :
    (loadStep s r).timers = ∅ ∨ (loadStep s r).timers = {s.nextId} := by
  have hclear := timerInv_clear hinv
  cases r with
  | err => exact Or.inl (by simp [loadStep, loadClear, hclear])
  | ok evOpt =>
    rw [loadStep]
    by_cases hev : (eventsOf evOpt).isEmpty
    · rw [if_pos hev]
      exact Or.inl (by simp [loadClear, hclear])
    · rw [if_neg hev]
      by_cases hlive : (renderState (loadClear s) (eventsOf evOpt)).live.card = 0
      · rw [if_pos hlive]
        exact Or.inl (by simp [renderState, loadClear, hclear])
      · rw [if_neg hlive]
        refine Or.inr ?_
        simp [startTimer, renderState, loadClear, hclear]

/-- C7 (amended): in every reachable session state at most one poll timer
is active, and the timer is active exactly when the Live Set is
non-empty; a load cycle removes the previously stored timer and its new
timer set is empty whenever its resulting Live Set is empty; a tick ends
with an active timer exactly when its resulting Live Set is non-empty.
(The claim's reading "Polling iff the most recent render produced a
non-empty Live Set" fails for flows that do not render — see the
counterexample — and is amended to "Polling iff the Live Set the flow
left behind is non-empty".) -/
theorem claim_C7_amended (s : AppState) (hs : AppReach s) (r : FetchOutcome) (h : Nat) :
    s.timers.card ≤ 1
    ∧ (s.timers = ∅ ↔ s.live = ∅)
    ∧ (s.handle = some h → h ∉ (loadStep s r).timers)
    ∧ ((loadStep s r).live = ∅ → (loadStep s r).timers = ∅)
    ∧ (s.timers ≠ ∅ → ((tickStep s r).timers = ∅ ↔ (tickStep s r).live = ∅)) := by
  have hinv := appReach_inv hs
  refine ⟨hinv.1, hinv.2.2.1, ?_, ?_, ?_⟩
  · intro hh hmem
    rcases loadStep_timers hinv r with he | he
    · rw [he] at hmem
      exact absurd hmem (Finset.not_mem_empty h)
    · rw [he] at hmem
      have := Finset.mem_singleton.mp hmem
      have hlt := hinv.2.2.2.2 h hh
      omega
  · intro hl
    exact (appReach_inv (AppReach.load r hs)).2.2.1.mpr hl
  · intro hne
    exact (appReach_inv (AppReach.tick r hs hne)).2.2.1

/-- A concrete event whose classified state is "in". -/
def liveEvent : Event :=
  { id := "1", date := 0, status := none,
    competitions := [{ status := some { state := some "in" }, odds := [], competitors := [] }] }

/-- The state after a load whose schedule contains one live event: the
render produces Live Set of size 1 and a timer starts. -/
def stateAfterLiveLoad : AppState := loadStep initApp (.ok (some [liveEvent]))

/-- The state after a further load whose schedule is empty: `loadWeek`
returns at "No games found" before rendering. -/
def stateAfterEmptyLoad : AppState := loadStep stateAfterLiveLoad (.ok (some []))

/-- C7 (counterexample): after the reachable sequence "load a schedule
with one live game, then load an empty schedule", the scheduler is idle
(timer count 0) although the most recent render — the one of the first
load, untouched by the second load, which returned before rendering —
produced a Live Set of size 1. This refutes the claim's final clause
"Polling after a flow completes iff the most recent render produced a
non-empty Live Set". -/
theorem claim_C7_counterexample :
    AppReach stateAfterEmptyLoad
    ∧ stateAfterEmptyLoad.timers.card = 0
    ∧ stateAfterEmptyLoad.lastRenderLive.isSome = true
    ∧ (stateAfterEmptyLoad.lastRenderLive.getD ∅).card = 1 := by
  refine ⟨AppReach.load _ (AppReach.load _ AppReach.init), ?_, ?_, ?_⟩ <;> rfl

/-- C7 witness: the amended theorem applied to the reachable state after
loading one live game, with a subsequent empty-schedule load and tick. -/
theorem claim_C7_witness :
    stateAfterLiveLoad.timers.card ≤ 1
    ∧ (stateAfterLiveLoad.timers = ∅ ↔ stateAfterLiveLoad.live = ∅)
    ∧ 0 ∉ (loadStep stateAfterLiveLoad (FetchOutcome.ok (some []))).timers
    ∧ (loadStep stateAfterLiveLoad (FetchOutcome.ok (some []))).timers = ∅
    ∧ ((tickStep stateAfterLiveLoad (FetchOutcome.ok (some []))).timers = ∅
        ↔ (tickStep stateAfterLiveLoad (FetchOutcome.ok (some []))).live = ∅) := by
  have hre : AppReach stateAfterLiveLoad := AppReach.load _ AppReach.init
  have H := claim_C7_amended stateAfterLiveLoad hre (FetchOutcome.ok (some [])) 0
  have h0 : stateAfterLiveLoad.handle = some 0 := rfl
  have hl : (loadStep stateAfterLiveLoad (FetchOutcome.ok (some []))).live = ∅ := rfl
  have hc1 : stateAfterLiveLoad.timers.card = 1 := rfl
  have hne : stateAfterLiveLoad.timers ≠ ∅ := by
    intro h
    rw [h] at hc1
    simp at hc1
  exact ⟨H.1, H.2.1, H.2.2.1 h0, H.2.2.2.1 hl, H.2.2.2.2 hne⟩

/-- C8: a poll tick whose fetch or JSON parse fails leaves the session
state exactly as it was — the timer is not cancelled, the Live Set and
rendered content are untouched. (`tickStep` is a total function: the
try/catch of `refreshLive` means a failed tick cannot throw to its
caller, it only logs.) -/
theorem claim_C8_tick_failure_preserves (s : AppState) :
    tickStep s FetchOutcome.err = s
    ∧ (tickStep s FetchOutcome.err).timers = s.timers
    ∧ (tickStep s FetchOutcome.err).live = s.live
    ∧ (tickStep s FetchOutcome.err).content = s.content :=
  ⟨rfl, rfl, rfl, rfl⟩

/-- Source `clamp` (app.js line 400): `Math.max(lo, Math.min(hi, n))`. -/
def clamp (n lo hi : Int) : Int := max lo (min hi n)

/-- The week-related part of the Season Selection state. -/
structure SeasonState where
  week : Int
  maxWeeks : Int
deriving DecidableEq

/-- `state.maxWeeks` after `init` (app.js lines 23, 57-61): 18 by default,
replaced by the regular-season calendar entry count when that count is
truthy (nonzero). -/
def initMaxWeeks (regEntriesLen : Option Nat) : Int :=
  match regEntriesLen with
  | some n => if n ≠ 0 then (n : Int) else 18
  | none => 18

/-- The detected current week fed to the clamp: `currentWeek || 1`
(app.js line 64) — an absent or zero detection falls back to 1. -/
def initCurrentWeek (currentWeek : Option Int) : Int :=
  match currentWeek with
  | some w => if w ≠ 0 then w else 1
  | none => 1

/-- `init` (app.js lines 54-64): `state.week = clamp(currentWeek || 1, 1,
state.maxWeeks)`. -/
def initSeason (currentWeek : Option Int) (regEntriesLen : Option Nat) : SeasonState :=
  { week := clamp (initCurrentWeek currentWeek) 1 (initMaxWeeks regEntriesLen),
    maxWeeks := initMaxWeeks regEntriesLen }

/-- The `PREV_BTN` handler (app.js line 84): decrement only when
`state.week > 1`. -/
def prevWeek (s : SeasonState) : SeasonState :=
  if s.week > 1 then { s with week := s.week - 1 } else s

/-- The `NEXT_BTN` handler (app.js line 87): increment only when
`state.week < state.maxWeeks`. -/
def nextWeek (s : SeasonState) : SeasonState :=
  if s.week < s.maxWeeks then { s with week := s.week + 1 } else s

/-- The `WEEK_SELECT` change handler (app.js line 80): set the week to the
selected value; the selector offers only the options 1..maxWeeks (app.js
lines 68-74). -/
def selectWeek (s : SeasonState) (w : Int) : SeasonState :=
  { s with week := w }

/-- The Season Selection states reachable from an `init` and any sequence
of navigation events; a selector event can only carry one of the offered
values 1..maxWeeks. -/
inductive SeasonReach : SeasonState → Prop where
  | init (currentWeek : Option Int) (regEntriesLen : Option Nat) :
      SeasonReach (initSeason currentWeek regEntriesLen)
  | prev {s : SeasonState} : SeasonReach s → SeasonReach (prevWeek s)
  | next {s : SeasonState} : SeasonReach s → SeasonReach (nextWeek s)
  | select {s : SeasonState} (w : Int) : SeasonReach s → 1 ≤ w → w ≤ s.maxWeeks →
      SeasonReach (selectWeek s w)

theorem one_le_initMaxWeeks (len : Option Nat) : 1 ≤ initMaxWeeks len := by
  cases len with
  | none => norm_num [initMaxWeeks]
  | some n =>
    rw [initMaxWeeks]
    by_cases h : n = 0
    · simp [h]
    · simp [h]
      omega

/-- C9: in every reachable Season Selection state the week lies within
[1, maxWeeks] — initialization clamps the detected week into the range,
the previous/next handlers only move inside the range, and the selector
only offers in-range values. -/
theorem claim_C9_week_in_range (s : SeasonState) (hs : SeasonReach s) :
    1 ≤ s.week ∧ s.week ≤ s.maxWeeks := by
  induction hs with
  | init cw len =>
    have hmax := one_le_initMaxWeeks len
    constructor
    · exact le_max_left _ _
    · exact max_le hmax (min_le_left _ _)
  | prev hs ih =>
    rw [prevWeek]
    split_ifs with h
    · obtain ⟨ih1, ih2⟩ := ih
      refine ⟨?_, ?_⟩ <;> simp <;> omega
    · exact ih
  | next hs ih =>
    rw [nextWeek]
    split_ifs with h
    · obtain ⟨ih1, ih2⟩ := ih
      refine ⟨?_, ?_⟩ <;> simp <;> omega
    · exact ih
  | select w hs hw1 hw2 ih =>
    exact ⟨hw1, hw2⟩

/-- C9 witness: the theorem applied to concrete initializations — an
in-range detection is kept, a too-large detection is clamped to maxWeeks,
and a falsy detection falls back to week 1. -/
theorem claim_C9_witness :
    1 ≤ (initSeason (some 5) (some 18)).week
    ∧ (initSeason (some 5) (some 18)).week ≤ (initSeason (some 5) (some 18)).maxWeeks
    ∧ (initSeason (some 5) (some 18)).week = 5
    ∧ (initSeason (some 40) (some 18)).week = 18
    ∧ (initSeason (some 0) none).week = 1 := by
  have H := claim_C9_week_in_range _ (SeasonReach.init (some 5) (some 18))
  refine ⟨H.1, H.2, ?_, ?_, ?_⟩ <;> rfl

/-- Model of `parseInt(x, 10)` on a string: skip leading whitespace, an
optional sign, then the longest prefix of decimal digits; `none` models
`NaN` (no digits at all). Radix 10 is explicit in the source, so no hex
forms apply; overflow of enormous digit strings to `Infinity` is not
modelled. -/
def jsParseInt10 (s : String) : Option Int :=
  let cs := s.toList.dropWhile Char.isWhitespace
  let sgn : Int := if cs.head? = some '-' then -1 else 1
  let cs1 := if cs.head? = some '-' || cs.head? = some '+' then cs.tail else cs
  let digits := cs1.takeWhile Char.isDigit
  if digits.isEmpty then none
  else some (sgn * (decValue digits : Int))

/-- Source `safeInt` (app.js line 399): `parseInt(x, 10)`, returned when
finite, else 0. `parseInt` stringifies its argument first: an absent
score (`undefined`) stringifies to "undefined", which has no digit prefix
and parses to `NaN`. -/
def safeInt (x : Option String) : Int :=
  let s := match x with
    | none => "undefined"
    | some v => v
  match jsParseInt10 s with
  | some n => n
  | none => 0

/-- The score cell text of `createCard` (app.js lines 200-202): an
em-dash placeholder when the state is "pre", else `String(safeInt(score))`. -/
def scoreText (stateStr : String) (score : Option String) : String :=
  if stateStr = "pre" then "—" else toString (safeInt score)

/-- C10: for every non-"pre" state the score cell is the total function
`String(safeInt(score))`; a missing score renders as "0", and so does any
score string with no parseable integer prefix — score rendering never
fails and never leaves the cell empty. -/
theorem claim_C10_score_total (st : String) (score : Option String) (h : st ≠ "pre") :
    scoreText st score = toString (safeInt score)
    ∧ (score = none → scoreText st score = "0")
    ∧ (∀ v, score = some v → jsParseInt10 v = none → scoreText st score = "0") := by
  refine ⟨?_, ?_, ?_⟩
  · rw [scoreText, if_neg h]
  · intro hn
    subst hn
    rw [scoreText, if_neg h]
    rfl
  · intro v hv hp
    subst hv
    rw [scoreText, if_neg h]
    simp [safeInt, hp]
    rfl

/-- C10 witness: the theorem applied in the "in" state to a missing
score, a non-numeric score and a numeric score. -/
theorem claim_C10_witness :
    ("in" : String) ≠ "pre"
    ∧ scoreText "in" none = "0"
    ∧ jsParseInt10 "abc" = none
    ∧ scoreText "in" (some "abc") = "0"
    ∧ scoreText "in" (some "17") = "17" := by
  have h : ("in" : String) ≠ "pre" := by decide
  refine ⟨h, (claim_C10_score_total "in" none h).2.1 rfl, rfl,
    (claim_C10_score_total "in" (some "abc") h).2.2 "abc" rfl rfl, ?_⟩
  rfl

end App
